import Mathlib

/-!
Verification development for the `atlas` generator core
(`atlas/generators.py`, `atlas/strategies/randomized.py`).

The Python code is shallowly embedded as follows.

* Hooks and generators are identified by natural numbers standing for
  Python object identity; `is` comparison becomes equality of these ids.
* An operator callable is embedded as a function from its argument to a
  pair of an event log and a result; the event log records hook
  `before_op`/`after_op` invocations and the single invocation of the
  underlying operator, so that ordering and multiplicity of calls are
  provable facts (`compile_op`).
* `Generator.generate` is embedded as a fuel-indexed loop over an
  abstract strategy state machine (`StratModel`).  A single execution of
  the compiled function is `StratModel.run`, returning a new strategy
  state and a `RunOutcome`: `value v` models a normal return, `skip`
  models raising `ExceptionAsContinue`, and `error` models raising any
  other exception.  The loop emits a trace of `GEvent` lifecycle events
  mirroring lines 257-283 of `generators.py` and ends with
  `GenResult.completed` (the while loop exited because `is_finished`
  became true), `GenResult.aborted` (a non-skip exception propagated) or
  fuel exhaustion (`none`, the enumeration was still running).
* The process-wide generator registry is embedded as a list of
  `Generator` records; `set_strategy`, `register_hooks`,
  `deregister_hook`, `__call__` (as `gen_call`) and the registration
  effect of `trace` (as `trace_effect`) are state transformers on it.
  Strategy instances and compiled functions are likewise identified by
  ids; a compiled function is recorded as the pair (strategy id, hook
  id list) it was compiled against, mirroring `compile_func`'s inputs.
-/

/-! ## Operator wrapping: `compile_op` (generators.py lines 42-71) -/

/-- Events recorded by one invocation of a compiled operator.  `before`
and `after` record a hook's `before_op`/`after_op` call together with
the arguments it received (call arguments, owning generator, operator
name, static id, and for `after_op` the return value); `opCall` records
the single invocation of the underlying operator. -/
inductive OpEvent (A R : Type) where
  | before (hookId : Nat) (args : A) (gen : Nat) (op_name : String) (sid : String)
  | opCall (args : A)
  | after (hookId : Nat) (args : A) (gen : Nat) (op_name : String) (sid : String) (retval : R)
deriving DecidableEq, Repr

/-- An operator callable: maps the call arguments to the event log of
the invocation together with the returned value. -/
def OpCallable (A R : Type) : Type := A → List (OpEvent A R) × R

/-- A bare operator (as returned by `Strategy.process_op`): invoking it
emits a single `opCall` event and returns its result. -/
def liftOp {A R : Type} (f : A → R) : OpCallable A R :=
  fun args => ([OpEvent.opCall args], f args)

/-- Embedding of `compile_op` (generators.py lines 42-71): with no hooks
the operator is returned as is; otherwise a closure is returned that
calls every hook's `before_op`, then the operator, then every hook's
`after_op`, and returns the operator's result. -/
def compile_op {A R : Type} (gen : Nat) (op_name : String) (sid : String)
    (op : OpCallable A R) (hooks : List Nat) : OpCallable A R :=
  if hooks.length = 0 then
    op
  else
    fun args =>
      let pre := hooks.map (fun h => OpEvent.before h args gen op_name sid)
      let r := op args
      let post := hooks.map (fun h => OpEvent.after h args gen op_name sid r.2)
      (pre ++ r.1 ++ post, r.2)

/-! ## Randomized strategy (strategies/randomized.py) -/

namespace RandStrategy

/-- Embedding of `RandStrategy.is_finished` (randomized.py lines 15-16):
it returns `False` unconditionally. -/
def is_finished : Bool := false

/-- Embedding of `RandStrategy.Select` (randomized.py lines 18-20),
which returns `random.choice(domain)`.  `random.choice` draws an index
uniformly below `len(domain)` and returns the element at that index; the
uniformly drawn index is passed explicitly as `i` with its bound `h`. -/
def Select {α : Type} (domain : List α) (i : Nat) (h : i < domain.length) : α :=
  domain.get ⟨i, h⟩

end RandStrategy

/-! ## The enumeration loop: `Generator.generate` (generators.py 244-283) -/

/-- Outcome of one execution of the compiled function within `generate`:
a returned value, an `ExceptionAsContinue` raise (`skip`), or any other
exception (`error`). -/
inductive RunOutcome (V : Type) where
  | value (v : V)
  | skip
  | error
deriving DecidableEq, Repr

/-- An abstract strategy together with the compiled function, as the
`generate` loop observes them: lifecycle methods transform the strategy
state, and `run` executes the compiled function once, updating the
strategy state (operator calls consult and advance it) and producing a
`RunOutcome`. -/
structure StratModel (σ V : Type) where
  init : σ → σ
  is_finished : σ → Bool
  init_run : σ → σ
  finish_run : σ → σ
  finish : σ → σ
  run : σ → σ × RunOutcome V

/-- Lifecycle events emitted by `Generator.generate`: hook and strategy
`init`/`init_run`/`finish_run`/`finish` calls and yielded values. -/
inductive GEvent (V : Type) where
  | hookInit (h : Nat)
  | stratInit
  | hookInitRun (h : Nat)
  | stratInitRun
  | yielded (v : V)
  | stratFinishRun
  | hookFinishRun (h : Nat)
  | stratFinish
  | hookFinish (h : Nat)
deriving DecidableEq, Repr

/-- How an enumeration ended: the `while` loop exited normally
(`completed`) or a non-skip exception propagated out (`aborted`). -/
inductive GenResult where
  | completed
  | aborted
deriving DecidableEq, Repr

/-- The `while not self.strategy.is_finished()` loop of
`Generator.generate` (generators.py lines 264-283), fuel-indexed.
Returns the emitted event trace, the final strategy state, and how the
enumeration ended (`none` when the fuel ran out first).  Mirroring the
source: each iteration emits every hook's `init_run`, then the
strategy's `init_run`, runs the compiled function (yielding its value
unless it raised), then emits the strategy's `finish_run` and every
hook's `finish_run`; `ExceptionAsContinue` is caught around the yield
alone, any other exception aborts the whole loop; after the loop the
strategy's `finish` and every hook's `finish` are emitted. -/
def generateLoop {σ V : Type} (m : StratModel σ V) (hooks : List Nat) :
    Nat → σ → List (GEvent V) × σ × Option GenResult
  | 0, s => ([], s, none)
  | Nat.succ fuel, s =>
    if m.is_finished s then
      (GEvent.stratFinish :: hooks.map GEvent.hookFinish, m.finish s, some GenResult.completed)
    else
      let s1 := m.init_run s
      let r := m.run s1
      match r.2 with
      | RunOutcome.error =>
          (hooks.map GEvent.hookInitRun ++ [GEvent.stratInitRun], r.1, some GenResult.aborted)
      | RunOutcome.skip =>
          let rest := generateLoop m hooks fuel (m.finish_run r.1)
          (hooks.map GEvent.hookInitRun
              ++ GEvent.stratInitRun :: GEvent.stratFinishRun :: hooks.map GEvent.hookFinishRun
              ++ rest.1,
            rest.2)
      | RunOutcome.value v =>
          let rest := generateLoop m hooks fuel (m.finish_run r.1)
          (hooks.map GEvent.hookInitRun
              ++ GEvent.stratInitRun :: GEvent.yielded v :: GEvent.stratFinishRun
                :: hooks.map GEvent.hookFinishRun
              ++ rest.1,
            rest.2)

/-- Embedding of `Generator.generate` (generators.py lines 244-283),
fully consumed: every hook's `init`, the strategy's `init`, then the
enumeration loop. -/
def generate {σ V : Type} (m : StratModel σ V) (hooks : List Nat) (fuel : Nat) (s : σ) :
    List (GEvent V) × σ × Option GenResult :=
  let r := generateLoop m hooks fuel (m.init s)
  (hooks.map GEvent.hookInit ++ GEvent.stratInit :: r.1, r.2)

/-- The sequence of run outcomes an enumeration observes: one outcome
per loop iteration, stopping when `is_finished` holds, an `error`
aborts, or the fuel runs out. -/
def outcomes {σ V : Type} (m : StratModel σ V) : Nat → σ → List (RunOutcome V)
  | 0, _ => []
  | Nat.succ fuel, s =>
    if m.is_finished s then []
    else
      let r := m.run (m.init_run s)
      match r.2 with
      | RunOutcome.error => [RunOutcome.error]
      | RunOutcome.skip => RunOutcome.skip :: outcomes m fuel (m.finish_run r.1)
      | RunOutcome.value v => RunOutcome.value v :: outcomes m fuel (m.finish_run r.1)

/-- Extracts the value of a `yielded` event. -/
def yieldVal {V : Type} : GEvent V → Option V
  | GEvent.yielded v => some v
  | _ => none

/-- The values carried by `value` outcomes, in order. -/
def valuesOf {V : Type} (l : List (RunOutcome V)) : List V :=
  l.filterMap (fun o => match o with
    | RunOutcome.value v => some v
    | _ => none)

/-- The block of lifecycle events one loop iteration emits for a given
run outcome: `init_run` brackets, the yield for a `value`, the closing
`finish_run` brackets for `value` and `skip` runs, and nothing past the
strategy `init_run` for an `error` run. -/
def runBlock {V : Type} (hooks : List Nat) : RunOutcome V → List (GEvent V)
  | RunOutcome.value v =>
      hooks.map GEvent.hookInitRun
        ++ GEvent.stratInitRun :: GEvent.yielded v :: GEvent.stratFinishRun
          :: hooks.map GEvent.hookFinishRun
  | RunOutcome.skip =>
      hooks.map GEvent.hookInitRun
        ++ GEvent.stratInitRun :: GEvent.stratFinishRun :: hooks.map GEvent.hookFinishRun
  | RunOutcome.error =>
      hooks.map GEvent.hookInitRun ++ [GEvent.stratInitRun]

/-! ### Trace-shape lemmas for the enumeration loop -/

theorem filterMap_none_of_map {V β : Type} (g : β → GEvent V)
    (hg : ∀ x, yieldVal (g x) = none) (l : List β) :
    (l.map g).filterMap yieldVal = [] := by
  induction l with
  | nil => rfl
  | cons a tl ih => simp [List.filterMap_cons, hg, ih]

theorem count_map_eq_zero {V β : Type} [DecidableEq V] (g : β → GEvent V)
    (e : GEvent V) (hg : ∀ x, g x ≠ e) (l : List β) :
    (l.map g).count e = 0 := by
  induction l with
  | nil => rfl
  | cons a tl ih => simp [List.count_cons, ih, hg a]

/-- The loop trace is exactly the concatenation of the per-outcome run
blocks, followed by the closing `finish` events exactly when the loop
completed normally. -/
theorem generateLoop_shape {σ V : Type} (m : StratModel σ V) (hooks : List Nat) :
    ∀ (fuel : Nat) (s : σ),
      (generateLoop m hooks fuel s).1
        = ((outcomes m fuel s).map (runBlock hooks)).flatten
          ++ (if (generateLoop m hooks fuel s).2.2 = some GenResult.completed
              then GEvent.stratFinish :: hooks.map GEvent.hookFinish else [])
  | 0, s => by simp [generateLoop, outcomes]
  | Nat.succ fuel, s => by
    by_cases hfin : m.is_finished s
    · simp [generateLoop, outcomes, hfin]
    · cases ho : (m.run (m.init_run s)).2 with
      | error =>
        simp [generateLoop, outcomes, hfin, ho, runBlock]
      | skip =>
        have ih := generateLoop_shape m hooks fuel (m.finish_run (m.run (m.init_run s)).1)
        simp only [generateLoop, outcomes, hfin, if_false, ho, ite_false, Bool.false_eq_true]
        simp only [List.map_cons, List.flatten_cons, runBlock]
        rw [ih]
        simp
      | value v =>
        have ih := generateLoop_shape m hooks fuel (m.finish_run (m.run (m.init_run s)).1)
        simp only [generateLoop, outcomes, hfin, if_false, ho, ite_false, Bool.false_eq_true]
        simp only [List.map_cons, List.flatten_cons, runBlock]
        rw [ih]
        simp

/-- The loop aborts exactly when some run raised a non-skip exception. -/
theorem generateLoop_aborted_iff {σ V : Type} (m : StratModel σ V) (hooks : List Nat) :
    ∀ (fuel : Nat) (s : σ),
      ((generateLoop m hooks fuel s).2.2 = some GenResult.aborted
        ↔ RunOutcome.error ∈ outcomes m fuel s)
  | 0, s => by simp [generateLoop, outcomes]
  | Nat.succ fuel, s => by
    by_cases hfin : m.is_finished s
    · simp [generateLoop, outcomes, hfin]
    · cases ho : (m.run (m.init_run s)).2 with
      | error => simp [generateLoop, outcomes, hfin, ho]
      | skip =>
        have ih := generateLoop_aborted_iff m hooks fuel (m.finish_run (m.run (m.init_run s)).1)
        simp [generateLoop, outcomes, hfin, ho, ih]
      | value v =>
        have ih := generateLoop_aborted_iff m hooks fuel (m.finish_run (m.run (m.init_run s)).1)
        simp [generateLoop, outcomes, hfin, ho, ih]

/-- The yields of one run block are the value of that run, if any. -/
theorem runBlock_yields {V : Type} (hooks : List Nat) (o : RunOutcome V) :
    (runBlock hooks o).filterMap yieldVal = valuesOf [o] := by
  cases o with
  | value v =>
    simp [runBlock, valuesOf, List.filterMap_append,
      filterMap_none_of_map GEvent.hookInitRun (fun _ => rfl) hooks,
      filterMap_none_of_map GEvent.hookFinishRun (fun _ => rfl) hooks,
      List.filterMap_cons, yieldVal]
  | skip =>
    simp [runBlock, valuesOf, List.filterMap_append,
      filterMap_none_of_map GEvent.hookInitRun (fun _ => rfl) hooks,
      filterMap_none_of_map GEvent.hookFinishRun (fun _ => rfl) hooks,
      List.filterMap_cons, yieldVal]
  | error =>
    simp [runBlock, valuesOf, List.filterMap_append,
      filterMap_none_of_map GEvent.hookInitRun (fun _ => rfl) hooks,
      List.filterMap_cons, yieldVal]

/-- The yields of a concatenation of run blocks are the values of the
corresponding outcomes. -/
theorem join_runBlock_yields {V : Type} (hooks : List Nat) (l : List (RunOutcome V)) :
    ((l.map (runBlock hooks)).flatten).filterMap yieldVal = valuesOf l := by
  induction l with
  | nil => rfl
  | cons o tl ih =>
    rw [List.map_cons, List.flatten_cons, List.filterMap_append, ih, runBlock_yields]
    cases o <;> simp [valuesOf, List.filterMap_cons]

theorem count_flatten_zero {V : Type} [DecidableEq V] (e : GEvent V)
    (L : List (List (GEvent V))) (h : ∀ l ∈ L, l.count e = 0) :
    L.flatten.count e = 0 := by
  induction L with
  | nil => rfl
  | cons a tl ih =>
    rw [List.flatten_cons, List.count_append, h a (by simp),
      ih (fun l hl => h l (by simp [hl]))]

theorem runBlock_count_stratInit {V : Type} [DecidableEq V] (hooks : List Nat)
    (o : RunOutcome V) : (runBlock hooks o).count GEvent.stratInit = 0 := by
  cases o <;>
    simp [runBlock, List.count_append, List.count_cons,
      count_map_eq_zero GEvent.hookInitRun GEvent.stratInit (fun x => by simp),
      count_map_eq_zero GEvent.hookFinishRun GEvent.stratInit (fun x => by simp)]

theorem runBlock_count_stratFinish {V : Type} [DecidableEq V] (hooks : List Nat)
    (o : RunOutcome V) : (runBlock hooks o).count GEvent.stratFinish = 0 := by
  cases o <;>
    simp [runBlock, List.count_append, List.count_cons,
      count_map_eq_zero GEvent.hookInitRun GEvent.stratFinish (fun x => by simp),
      count_map_eq_zero GEvent.hookFinishRun GEvent.stratFinish (fun x => by simp)]

theorem runBlock_count_hookFinish {V : Type} [DecidableEq V] (hooks : List Nat)
    (o : RunOutcome V) (h : Nat) : (runBlock hooks o).count (GEvent.hookFinish h) = 0 := by
  cases o <;>
    simp [runBlock, List.count_append, List.count_cons,
      count_map_eq_zero GEvent.hookInitRun (GEvent.hookFinish h) (fun x => by simp),
      count_map_eq_zero GEvent.hookFinishRun (GEvent.hookFinish h) (fun x => by simp)]

theorem outcomes_nil_of_finished {σ V : Type} (m : StratModel σ V) (fuel : Nat) (s : σ)
    (h : m.is_finished s = true) : outcomes m fuel s = [] := by
  cases fuel with
  | zero => rfl
  | succ fuel => simp [outcomes, h]

/-! ### Claim theorems about the enumeration loop -/

/-- C1: over a full enumeration by `Generator.generate`, a run raising
`ExceptionAsContinue` (`RunOutcome.skip`) is absorbed at the loop: the
yielded values are exactly the values of the non-skip, non-error runs
(a skip run contributes nothing and the remaining runs are unaffected),
and the enumeration aborts by a propagating exception precisely when
some run raises a non-skip exception. -/
theorem generate_skip_isolated_error_aborts {σ V : Type} (m : StratModel σ V)
    (hooks : List Nat) (fuel : Nat) (s : σ) :
    (generate m hooks fuel s).1.filterMap yieldVal = valuesOf (outcomes m fuel (m.init s))
    ∧ ((generate m hooks fuel s).2.2 = some GenResult.aborted
        ↔ RunOutcome.error ∈ outcomes m fuel (m.init s)) := by
  constructor
  · have hshape := generateLoop_shape m hooks fuel (m.init s)
    simp only [generate]
    rw [List.filterMap_append, filterMap_none_of_map GEvent.hookInit (fun _ => rfl) hooks,
      List.filterMap_cons]
    rw [hshape, List.filterMap_append, join_runBlock_yields]
    by_cases hc : (generateLoop m hooks fuel (m.init s)).2.2 = some GenResult.completed
    · simp [hc, List.filterMap_cons,
        filterMap_none_of_map GEvent.hookFinish (fun _ => rfl) hooks, yieldVal]
    · simp [hc, yieldVal]
  · have := generateLoop_aborted_iff m hooks fuel (m.init s)
    simpa [generate] using this

/-- Concrete strategy machine for witnesses: counts runs up to 3,
skipping the run at state 1 and yielding the state otherwise. -/
def mSkipVal : StratModel Nat Nat where
  init := fun _ => 0
  is_finished := fun s => decide (3 ≤ s)
  init_run := fun s => s
  finish_run := fun s => s + 1
  finish := fun s => s
  run := fun s => (s, if s = 1 then RunOutcome.skip else RunOutcome.value s)

/-- Concrete strategy machine for witnesses: raises a genuine exception
on the run at state 1, yielding the state otherwise. -/
def mErrVal : StratModel Nat Nat where
  init := fun _ => 0
  is_finished := fun s => decide (3 ≤ s)
  init_run := fun s => s
  finish_run := fun s => s + 1
  finish := fun s => s
  run := fun s => (s, if s = 1 then RunOutcome.error else RunOutcome.value s)

/-- C2: when an enumeration by `Generator.generate` completes, its event
trace is exactly: every hook's `init`, the strategy's `init` (once,
before any run), then for each run its `runBlock` (every hook's
`init_run`, the strategy's `init_run`, the yield if any, the strategy's
`finish_run`, every hook's `finish_run`), then the strategy's `finish`
and every hook's `finish` (each emitted exactly once); no run errored;
and if `is_finished` holds immediately after `init`, no `init_run` is
emitted and nothing is yielded: the trace is just the `init` and
`finish` brackets. -/
theorem generate_lifecycle_protocol {σ V : Type} [DecidableEq V] (m : StratModel σ V)
    (hooks : List Nat) (fuel : Nat) (s : σ)
    (hc : (generate m hooks fuel s).2.2 = some GenResult.completed) :
    (generate m hooks fuel s).1
      = hooks.map GEvent.hookInit
          ++ GEvent.stratInit
            :: (((outcomes m fuel (m.init s)).map (runBlock hooks)).flatten
              ++ GEvent.stratFinish :: hooks.map GEvent.hookFinish)
    ∧ (generate m hooks fuel s).1.count GEvent.stratInit = 1
    ∧ (generate m hooks fuel s).1.count GEvent.stratFinish = 1
    ∧ RunOutcome.error ∉ outcomes m fuel (m.init s)
    ∧ (m.is_finished (m.init s) = true →
        (generate m hooks fuel s).1
          = hooks.map GEvent.hookInit
              ++ GEvent.stratInit :: GEvent.stratFinish :: hooks.map GEvent.hookFinish) := by
  have hc' : (generateLoop m hooks fuel (m.init s)).2.2 = some GenResult.completed := hc
  have hshape := generateLoop_shape m hooks fuel (m.init s)
  rw [hc', if_pos rfl] at hshape
  have htrace : (generate m hooks fuel s).1
      = hooks.map GEvent.hookInit
          ++ GEvent.stratInit
            :: (((outcomes m fuel (m.init s)).map (runBlock hooks)).flatten
              ++ GEvent.stratFinish :: hooks.map GEvent.hookFinish) := by
    simp only [generate]
    rw [hshape]
  have hflatInit : (((outcomes m fuel (m.init s)).map (runBlock hooks)).flatten).count
      (GEvent.stratInit : GEvent V) = 0 := by
    refine count_flatten_zero _ _ (fun l hl => ?_)
    rcases List.mem_map.mp hl with ⟨o, _, rfl⟩
    exact runBlock_count_stratInit hooks o
  have hflatFinish : (((outcomes m fuel (m.init s)).map (runBlock hooks)).flatten).count
      (GEvent.stratFinish : GEvent V) = 0 := by
    refine count_flatten_zero _ _ (fun l hl => ?_)
    rcases List.mem_map.mp hl with ⟨o, _, rfl⟩
    exact runBlock_count_stratFinish hooks o
  refine ⟨htrace, ?_, ?_, ?_, ?_⟩
  · rw [htrace]
    simp [List.count_append, List.count_cons, hflatInit,
      count_map_eq_zero GEvent.hookInit GEvent.stratInit (fun x => by simp),
      count_map_eq_zero GEvent.hookFinish GEvent.stratInit (fun x => by simp)]
  · rw [htrace]
    simp [List.count_append, List.count_cons, hflatFinish,
      count_map_eq_zero GEvent.hookInit GEvent.stratFinish (fun x => by simp),
      count_map_eq_zero GEvent.hookFinish GEvent.stratFinish (fun x => by simp)]
  · intro herr
    have := (generateLoop_aborted_iff m hooks fuel (m.init s)).mpr herr
    rw [hc'] at this
    exact absurd this (by simp)
  · intro hfin
    rw [htrace, outcomes_nil_of_finished m fuel (m.init s) hfin]
    simp

/-- Witness for C2 at a concrete machine: the enumeration under
`mSkipVal` with one hook completes and its trace counts one strategy
`init` and one strategy `finish`. -/
theorem generate_lifecycle_protocol_witness :
    (generate mSkipVal [7] 5 0).2.2 = some GenResult.completed
    ∧ (generate mSkipVal [7] 5 0).1.count GEvent.stratInit = 1
    ∧ (generate mSkipVal [7] 5 0).1.count GEvent.stratFinish = 1 :=
  ⟨rfl, (generate_lifecycle_protocol mSkipVal [7] 5 0 rfl).2.1,
    (generate_lifecycle_protocol mSkipVal [7] 5 0 rfl).2.2.1⟩

/-- C9: a run aborted by `ExceptionAsContinue` still receives its
closing bracket — the strategy's `finish_run` and every hook's
`finish_run` are emitted before any event of the remaining runs, and the
loop continues — whereas a run raising any other exception ends the loop
with no further events (in particular no `finish_run`), and an aborted
enumeration's trace contains no strategy `finish` and no hook `finish`
at all. -/
theorem skip_run_bracketed_error_run_abrupt {σ V : Type} [DecidableEq V]
    (m : StratModel σ V) (hooks : List Nat) (fuel : Nat) (s s2 : σ) :
    (m.is_finished s = false → m.run (m.init_run s) = (s2, RunOutcome.skip) →
      generateLoop m hooks (fuel + 1) s
        = (hooks.map GEvent.hookInitRun
            ++ GEvent.stratInitRun :: GEvent.stratFinishRun :: hooks.map GEvent.hookFinishRun
            ++ (generateLoop m hooks fuel (m.finish_run s2)).1,
           (generateLoop m hooks fuel (m.finish_run s2)).2))
    ∧ (m.is_finished s = false → m.run (m.init_run s) = (s2, RunOutcome.error) →
      generateLoop m hooks (fuel + 1) s
        = (hooks.map GEvent.hookInitRun ++ [GEvent.stratInitRun], s2, some GenResult.aborted))
    ∧ ((generate m hooks fuel s).2.2 = some GenResult.aborted →
        (generate m hooks fuel s).1.count GEvent.stratFinish = 0
        ∧ ∀ h, (generate m hooks fuel s).1.count (GEvent.hookFinish h) = 0) := by
  refine ⟨?_, ?_, ?_⟩
  · intro hfin hrun
    simp [generateLoop, hfin, hrun]
  · intro hfin hrun
    simp [generateLoop, hfin, hrun]
  · intro hab
    have hab' : (generateLoop m hooks fuel (m.init s)).2.2 = some GenResult.aborted := hab
    have hshape := generateLoop_shape m hooks fuel (m.init s)
    rw [hab'] at hshape
    rw [if_neg (by simp), List.append_nil] at hshape
    have htrace : (generate m hooks fuel s).1
        = hooks.map GEvent.hookInit
            ++ GEvent.stratInit :: ((outcomes m fuel (m.init s)).map (runBlock hooks)).flatten := by
      simp only [generate]
      rw [hshape]
    constructor
    · rw [htrace]
      simp [List.count_append, List.count_cons,
        count_map_eq_zero GEvent.hookInit GEvent.stratFinish (fun x => by simp)]
      refine count_flatten_zero _ _ (fun l hl => ?_)
      rcases List.mem_map.mp hl with ⟨o, _, rfl⟩
      exact runBlock_count_stratFinish hooks o
    · intro h
      rw [htrace]
      simp [List.count_append, List.count_cons,
        count_map_eq_zero GEvent.hookInit (GEvent.hookFinish h) (fun x => by simp)]
      refine count_flatten_zero _ _ (fun l hl => ?_)
      rcases List.mem_map.mp hl with ⟨o, _, rfl⟩
      exact runBlock_count_hookFinish hooks o h

/-- Witness for C9 at concrete machines: a skip run under `mSkipVal` is
closed with `finish_run` events before the loop continues, an error run
under `mErrVal` ends the loop abruptly, and the aborted enumeration's
trace contains no `finish` events. -/
theorem skip_run_bracketed_error_run_abrupt_witness :
    (generateLoop mSkipVal [7] (3 + 1) 1
      = ([7].map GEvent.hookInitRun
          ++ GEvent.stratInitRun :: GEvent.stratFinishRun :: [7].map GEvent.hookFinishRun
          ++ (generateLoop mSkipVal [7] 3 (mSkipVal.finish_run 1)).1,
         (generateLoop mSkipVal [7] 3 (mSkipVal.finish_run 1)).2))
    ∧ (generateLoop mErrVal [7] (3 + 1) 1
        = ([7].map GEvent.hookInitRun ++ [GEvent.stratInitRun], 1, some GenResult.aborted))
    ∧ (generate mErrVal [7] 5 0).1.count GEvent.stratFinish = 0
    ∧ (generate mErrVal [7] 5 0).1.count (GEvent.hookFinish 7) = 0 :=
  ⟨(skip_run_bracketed_error_run_abrupt mSkipVal [7] 3 1 1).1 rfl rfl,
    (skip_run_bracketed_error_run_abrupt mErrVal [7] 3 1 1).2.1 rfl rfl,
    ((skip_run_bracketed_error_run_abrupt mErrVal [7] 5 0 0).2.2 rfl).1,
    ((skip_run_bracketed_error_run_abrupt mErrVal [7] 5 0 0).2.2 rfl).2 7⟩

/-! ### Claim theorems about operator wrapping and the random strategy -/

/-- C4: with a non-empty hook list, the callable built by `compile_op`
first calls every hook's `before_op` in registration order with the call
arguments plus generator, operator name and static id, then invokes the
underlying operator exactly once, then calls every hook's `after_op` in
the same registration order with the same metadata plus the return
value, and finally returns exactly the operator's return value. -/
theorem compile_op_hook_bracketing {A R : Type} (gen : Nat) (op_name sid : String)
    (f : A → R) (hooks : List Nat) (args : A) (hne : hooks ≠ []) :
    compile_op gen op_name sid (liftOp f) hooks args
      = (hooks.map (fun h => OpEvent.before h args gen op_name sid)
          ++ OpEvent.opCall args
            :: hooks.map (fun h => OpEvent.after h args gen op_name sid (f args)),
         f args) := by
  have hlen : ¬hooks.length = 0 := by simpa [List.length_eq_zero] using hne
  simp [compile_op, hlen, liftOp]

/-- Witness for C4: two hooks around a concrete operator. -/
theorem compile_op_hook_bracketing_witness :
    compile_op 1 "Select" "s1" (liftOp (fun n : Nat => n + 1)) [4, 5] 3
      = ([OpEvent.before 4 3 1 "Select" "s1", OpEvent.before 5 3 1 "Select" "s1",
          OpEvent.opCall 3,
          OpEvent.after 4 3 1 "Select" "s1" 4, OpEvent.after 5 3 1 "Select" "s1" 4],
         4) :=
  compile_op_hook_bracketing 1 "Select" "s1" (fun n : Nat => n + 1) [4, 5] 3 (by simp)

/-- C5: with an empty hook list, `compile_op` returns the operator
callable itself, unchanged: it is the identity on the operator. -/
theorem compile_op_no_hooks_identity {A R : Type} (gen : Nat) (op_name sid : String)
    (op : OpCallable A R) :
    compile_op gen op_name sid op [] = op := rfl

theorem count_index_uniform {α : Type} [DecidableEq α] (l : List α) (v : α) :
    ((List.range l.length).filter (fun j => decide (l[j]? = some v))).length
      = l.count v := by
  induction l with
  | nil => simp
  | cons a tl ih =>
    rw [List.length_cons, List.range_succ_eq_map, List.filter_cons]
    have hmap : ((List.range tl.length).map Nat.succ).filter
        (fun j => decide ((a :: tl)[j]? = some v))
        = ((List.range tl.length).filter (fun j => decide (tl[j]? = some v))).map
            Nat.succ := by
      rw [List.filter_map]
      apply congrArg
      apply List.filter_congr
      intro x _
      simp [Function.comp]
    by_cases hav : a = v
    · subst hav
      rw [if_pos (by simp)]
      rw [hmap]
      simp [ih, List.count_cons]
    · rw [if_neg (by simp [hav])]
      rw [hmap]
      simp [ih, List.count_cons, Ne.symm hav]

/-- C7: `RandStrategy.is_finished` returns false on every call (the
randomized enumeration never reports exhaustion), and `RandStrategy`'s
`Select`, which resolves `random.choice` at a uniformly drawn index `i`
below the domain's length, always returns an element of the
caller-supplied domain; uniformity over positions: for every value `v`,
the number of indices at which `Select` would return `v` equals the
multiplicity of `v` in the domain. -/
theorem rand_is_finished_false_select_uniform {α : Type} [DecidableEq α]
    (domain : List α) (i : Nat) (h : i < domain.length) :
    RandStrategy.is_finished = false
    ∧ RandStrategy.Select domain i h ∈ domain
    ∧ ∀ v : α, ((List.range domain.length).filter
        (fun j => decide (domain[j]? = some v))).length = domain.count v :=
  ⟨rfl, List.get_mem domain i h, fun v => count_index_uniform domain v⟩

/-- Witness for C7 on a concrete domain. -/
theorem rand_is_finished_false_select_uniform_witness :
    RandStrategy.is_finished = false
    ∧ RandStrategy.Select [10, 20, 30] 1 (by decide) ∈ [10, 20, 30]
    ∧ ((List.range ([10, 20, 30] : List Nat).length).filter
        (fun j => decide (([10, 20, 30] : List Nat)[j]? = some 20))).length
      = ([10, 20, 30] : List Nat).count 20 :=
  ⟨(rand_is_finished_false_select_uniform [10, 20, 30] 1 (by decide)).1,
    (rand_is_finished_false_select_uniform [10, 20, 30] 1 (by decide)).2.1,
    (rand_is_finished_false_select_uniform [10, 20, 30] 1 (by decide)).2.2 20⟩

/-! ## The generator registry and configuration mutators
(generators.py lines 135-242, 285-305)

A `Generator` record carries the fields of the Python object that the
configuration mutators touch: its identity (`gid`), the identity of its
current `Strategy` instance (`strategy`), its registered group name
(`group`), its ordered hook identity list (`hooks`), and the compiled
function cache (`compiled_func`), recorded as the (strategy, hook list)
pair `compile_func` was given, or `none` for the null cache.  The
process-wide registry is the list of all constructed generators;
`get_group_by_name g` corresponds to filtering it by `group = some g`. -/
structure Generator where
  gid : Nat
  strategy : Nat
  group : Option String
  hooks : List Nat
  compiled_func : Option (Nat × List Nat)
deriving DecidableEq, Repr

/-- The registry of all constructed generators. -/
abbrev RegState : Type := List Generator

/-- Looks a generator up by identity. -/
def findGen (st : RegState) (gid : Nat) : Option Generator :=
  st.find? (fun g => g.gid == gid)

/-- Applies `f` to every registry entry satisfying `p` (the net effect
of a Python loop performing a per-object update on those objects). -/
def updateWhere (p : Generator → Bool) (f : Generator → Generator) (st : RegState) :
    RegState :=
  st.map (fun g => if p g then f g else g)

/-- The local effect of `Generator.set_strategy` (generators.py lines
182-183): install the strategy instance and null the cache. -/
def newStrategy (s : Nat) (g : Generator) : Generator :=
  { g with strategy := s, compiled_func := none }

/-- The group name of the generator `gid`, if it has one (`self.group`
in the Python methods). -/
def groupOf (st : RegState) (gid : Nat) : Option String :=
  (findGen st gid).bind Generator.group

/-- Embedding of `Generator.set_strategy` (generators.py lines 171-188)
called on the generator `gid` with a `Strategy` instance `s`
(`make_strategy` returns a `Strategy` argument unchanged): sets the
strategy and nulls the cache on `gid`, and, when `as_group` is true and
the generator has a group, does the same on every other member of the
group (the recursive calls run with `as_group=False`). -/
def set_strategy (st : RegState) (gid : Nat) (s : Nat) (as_group : Bool) : RegState :=
  let st1 := updateWhere (fun g => g.gid == gid) (newStrategy s) st
  if as_group then
    match groupOf st gid with
    | some grp =>
        updateWhere (fun g => g.group == some grp && g.gid != gid) (newStrategy s) st1
    | none => st1
  else st1

/-- The local effect of `Generator.register_hooks` (generators.py lines
200-201): extend the hook list and null the cache. -/
def addHooks (hs : List Nat) (g : Generator) : Generator :=
  { g with hooks := g.hooks ++ hs, compiled_func := none }

/-- Embedding of `Generator.register_hooks` (generators.py lines
190-206): appends the hooks and nulls the cache on `gid`, and, when
`as_group` is true and the generator has a group, does the same on every
other member of the group. -/
def register_hooks (st : RegState) (gid : Nat) (hs : List Nat) (as_group : Bool) :
    RegState :=
  let st1 := updateWhere (fun g => g.gid == gid) (addHooks hs) st
  if as_group then
    match groupOf st gid with
    | some grp =>
        updateWhere (fun g => g.group == some grp && g.gid != gid) (addHooks hs) st1
    | none => st1
  else st1

/-- The local effect of a successful `Generator.deregister_hook`
(generators.py lines 221-222): remove the first identical hook and null
the cache. -/
def removeHook (hook : Nat) (g : Generator) : Generator :=
  { g with hooks := g.hooks.erase hook, compiled_func := none }

/-- The per-generator body of `Generator.deregister_hook` (generators.py
lines 218-222): if no registered hook is identical to `hook`, raise
`ValueError("Hook was not registered.")`; otherwise remove it and null
the cache. -/
def deregOne (st : RegState) (gid : Nat) (hook : Nat) : Except String RegState :=
  match findGen st gid with
  | none => Except.ok st
  | some self =>
    if self.hooks.all (fun i => i != hook) then
      Except.error "Hook was not registered."
    else
      Except.ok (updateWhere (fun g => g.gid == gid) (removeHook hook) st)

/-- The propagation loop of `Generator.deregister_hook` (generators.py
lines 224-227): deregister the hook on each listed group member in turn,
propagating the first raised error. -/
def deregList (hook : Nat) : List Nat → RegState → Except String RegState
  | [], st => Except.ok st
  | gid :: rest, st =>
    match deregOne st gid hook with
    | Except.error e => Except.error e
    | Except.ok st1 => deregList hook rest st1

/-- Embedding of `Generator.deregister_hook` (generators.py lines
208-227): the local check-and-remove on `gid`, then, when `as_group` is
true and the generator has a group, the same on every other member of
the group, any raise propagating. -/
def deregister_hook (st : RegState) (gid : Nat) (hook : Nat) (as_group : Bool) :
    Except String RegState :=
  (deregOne st gid hook).bind (fun st1 =>
    if as_group then
      match groupOf st gid with
      | some grp =>
          deregList hook
            ((st.filter (fun g => g.group == some grp && g.gid != gid)).map
              (fun g => g.gid))
            st1
      | none => Except.ok st1
    else Except.ok st1)

/-- Embedding of the caching behavior of `Generator.__call__`
(generators.py lines 239-242, likewise lines 257-258 of `generate`): if
the cache is null, compile against the current strategy and hook list
and store the result; otherwise reuse the cache. -/
def ensureCompiled (g : Generator) : Generator :=
  match g.compiled_func with
  | none => { g with compiled_func := some (g.strategy, g.hooks) }
  | some _ => g

/-- The registry effect of invoking the generator `gid`: its entry gets
`ensureCompiled`. -/
def gen_call (st : RegState) (gid : Nat) : RegState :=
  updateWhere (fun g => g.gid == gid) ensureCompiled st

theorem ensureCompiled_gid (g : Generator) : (ensureCompiled g).gid = g.gid := by
  unfold ensureCompiled
  rcases hc : g.compiled_func with _ | v <;> simp [hc]

theorem ensureCompiled_none {g : Generator} (h : g.compiled_func = none) :
    ensureCompiled g = { g with compiled_func := some (g.strategy, g.hooks) } := by
  unfold ensureCompiled
  rw [h]

/-- The current hook list of the generator `gid` (`self.hooks`). -/
def hooksOf (st : RegState) (gid : Nat) : List Nat :=
  match findGen st gid with
  | some g => g.hooks
  | none => []

/-- Embedding of the registry effect of `Generator.trace` (generators.py
lines 285-305) consuming a `generate` enumeration of the strategy
machine `m`: a fresh `DefaultTracer` (identity `tracer`) is registered
with the `register_hooks` default `as_group=True`; the tracer is
deregistered (again with the default `as_group=True`) only if the
enumeration completed normally — if it aborted or was abandoned, the
`deregister_hook` line is never reached. -/
def trace_effect {σ V : Type} (m : StratModel σ V) (fuel : Nat) (s : σ)
    (st : RegState) (gid : Nat) (tracer : Nat) : Except String RegState :=
  let st1 := register_hooks st gid [tracer] true
  if (generate m (hooksOf st1 gid) fuel s).2.2 = some GenResult.completed then
    deregister_hook st1 gid tracer true
  else
    Except.ok st1

/-! ### Registry lookup lemmas -/

theorem findGen_updateWhere (p : Generator → Bool) (f : Generator → Generator)
    (hf : ∀ g, (f g).gid = g.gid) (st : RegState) (tid : Nat) :
    findGen (updateWhere p f st) tid
      = (findGen st tid).map (fun g => if p g then f g else g) := by
  induction st with
  | nil => rfl
  | cons a tl ih =>
    show findGen ((if p a then f a else a) :: updateWhere p f tl) tid = _
    unfold findGen at ih ⊢
    rw [List.find?_cons, List.find?_cons]
    have hgid : ((if p a then f a else a).gid == tid) = (a.gid == tid) := by
      by_cases hpa : p a <;> simp [hpa, hf]
    rw [hgid]
    cases hb : (a.gid == tid) with
    | true => simp
    | false => exact ih

theorem findGen_mem (st : RegState) (g : Generator)
    (hnd : (st.map Generator.gid).Nodup) (hm : g ∈ st) :
    findGen st g.gid = some g := by
  induction st with
  | nil => cases hm
  | cons a tl ih =>
    rw [List.map_cons, List.nodup_cons] at hnd
    rcases List.mem_cons.mp hm with rfl | hm'
    · simp [findGen, List.find?_cons]
    · have hne : (a.gid == g.gid) = false := by
        have hin : g.gid ∈ tl.map Generator.gid := List.mem_map_of_mem _ hm'
        simp only [beq_eq_false_iff_ne, ne_eq]
        intro he
        exact hnd.1 (he ▸ hin)
      unfold findGen at ih ⊢
      rw [List.find?_cons, hne]
      exact ih hnd.2 hm'

theorem findGen_some {st : RegState} {tid : Nat} {g : Generator}
    (h : findGen st tid = some g) : g ∈ st ∧ g.gid = tid := by
  refine ⟨List.mem_of_find?_eq_some h, ?_⟩
  have := List.find?_some h
  simpa using this


/-! ### Unfolding lemmas for the registry operations -/

theorem groupOf_eq {st : RegState} {gid : Nat} {g0 : Generator}
    (hfind : findGen st gid = some g0) : groupOf st gid = g0.group := by
  unfold groupOf
  rw [hfind]
  rfl

theorem deregOne_eq {st : RegState} {gid : Nat} {g0 : Generator}
    (hfind : findGen st gid = some g0) (hook : Nat) :
    deregOne st gid hook
      = if g0.hooks.all (fun i => i != hook) then
          Except.error "Hook was not registered."
        else
          Except.ok (updateWhere (fun g => g.gid == gid) (removeHook hook) st) := by
  unfold deregOne
  rw [hfind]

theorem deregOne_eq_none {st : RegState} {gid : Nat}
    (hfind : findGen st gid = none) (hook : Nat) :
    deregOne st gid hook = Except.ok st := by
  unfold deregOne
  rw [hfind]

theorem deregList_cons_ok {st st1 : RegState} {i hook : Nat}
    (h : deregOne st i hook = Except.ok st1) (rest : List Nat) :
    deregList hook (i :: rest) st = deregList hook rest st1 := by
  have hd : deregList hook (i :: rest) st
      = match deregOne st i hook with
        | Except.error e => Except.error e
        | Except.ok st1 => deregList hook rest st1 := rfl
  rw [hd, h]

theorem deregList_cons_error {st : RegState} {i hook : Nat} {e : String}
    (h : deregOne st i hook = Except.error e) (rest : List Nat) :
    deregList hook (i :: rest) st = Except.error e := by
  have hd : deregList hook (i :: rest) st
      = match deregOne st i hook with
        | Except.error e => Except.error e
        | Except.ok st1 => deregList hook rest st1 := rfl
  rw [hd, h]

theorem deregister_hook_error {st : RegState} {gid hook : Nat} {e : String}
    (hone : deregOne st gid hook = Except.error e) (as_group : Bool) :
    deregister_hook st gid hook as_group = Except.error e := by
  unfold deregister_hook
  rw [hone]
  rfl

theorem deregister_hook_ok_false {st st1 : RegState} {gid hook : Nat}
    (hone : deregOne st gid hook = Except.ok st1) :
    deregister_hook st gid hook false = Except.ok st1 := by
  unfold deregister_hook
  rw [hone]
  rfl

theorem deregister_hook_ok_true_none {st st1 : RegState} {gid hook : Nat}
    (hone : deregOne st gid hook = Except.ok st1) (hgr : groupOf st gid = none) :
    deregister_hook st gid hook true = Except.ok st1 := by
  unfold deregister_hook
  rw [hone]
  show (if true then
      match groupOf st gid with
      | some grp =>
          deregList hook
            ((st.filter (fun g => g.group == some grp && g.gid != gid)).map
              (fun g => g.gid)) st1
      | none => Except.ok st1
    else Except.ok st1) = Except.ok st1
  rw [if_pos rfl, hgr]

theorem deregister_hook_ok_true_some {st st1 : RegState} {gid hook : Nat} {grp : String}
    (hone : deregOne st gid hook = Except.ok st1) (hgr : groupOf st gid = some grp) :
    deregister_hook st gid hook true
      = deregList hook
          ((st.filter (fun g => g.group == some grp && g.gid != gid)).map
            (fun g => g.gid)) st1 := by
  unfold deregister_hook
  rw [hone]
  show (if true then
      match groupOf st gid with
      | some grp =>
          deregList hook
            ((st.filter (fun g => g.group == some grp && g.gid != gid)).map
              (fun g => g.gid)) st1
      | none => Except.ok st1
    else Except.ok st1) = _
  rw [if_pos rfl, hgr]

theorem set_strategy_false {st : RegState} (gid s : Nat) :
    set_strategy st gid s false
      = updateWhere (fun g => g.gid == gid) (newStrategy s) st := rfl

theorem set_strategy_true_none {st : RegState} {gid : Nat} (s : Nat)
    (hgr : groupOf st gid = none) :
    set_strategy st gid s true
      = updateWhere (fun g => g.gid == gid) (newStrategy s) st := by
  unfold set_strategy
  rw [if_pos rfl, hgr]

theorem set_strategy_true_some {st : RegState} {gid : Nat} {grp : String} (s : Nat)
    (hgr : groupOf st gid = some grp) :
    set_strategy st gid s true
      = updateWhere (fun g => g.group == some grp && g.gid != gid) (newStrategy s)
          (updateWhere (fun g => g.gid == gid) (newStrategy s) st) := by
  unfold set_strategy
  rw [if_pos rfl, hgr]

theorem register_hooks_false {st : RegState} (gid : Nat) (hs : List Nat) :
    register_hooks st gid hs false
      = updateWhere (fun g => g.gid == gid) (addHooks hs) st := rfl

theorem register_hooks_true_none {st : RegState} {gid : Nat} (hs : List Nat)
    (hgr : groupOf st gid = none) :
    register_hooks st gid hs true
      = updateWhere (fun g => g.gid == gid) (addHooks hs) st := by
  unfold register_hooks
  rw [if_pos rfl, hgr]

theorem register_hooks_true_some {st : RegState} {gid : Nat} {grp : String} (hs : List Nat)
    (hgr : groupOf st gid = some grp) :
    register_hooks st gid hs true
      = updateWhere (fun g => g.group == some grp && g.gid != gid) (addHooks hs)
          (updateWhere (fun g => g.gid == gid) (addHooks hs) st) := by
  unfold register_hooks
  rw [if_pos rfl, hgr]

/-! ### Claim theorem: cache invalidation (C3) -/

/-- C3: each configuration mutator, when it succeeds, nulls the target
generator's compiled-function cache — `set_strategy` and
`register_hooks` always, `deregister_hook` whenever it does not raise —
and a subsequent call on a null cache compiles against the current
strategy and hook list and stores that compilation, so the cache is
non-null only with the configuration it was compiled for. -/
theorem mutators_invalidate_cache (st : RegState) (gid s hook : Nat) (hs : List Nat)
    (b : Bool) (g0 : Generator) (hfind : findGen st gid = some g0) :
    findGen (set_strategy st gid s b) gid = some (newStrategy s g0)
    ∧ findGen (register_hooks st gid hs b) gid = some (addHooks hs g0)
    ∧ (∀ st2, deregister_hook st gid hook b = Except.ok st2 →
        (findGen st2 gid).map Generator.compiled_func = some none)
    ∧ (g0.compiled_func = none →
        findGen (gen_call st gid) gid
          = some { g0 with compiled_func := some (g0.strategy, g0.hooks) }) := by
  have hgid : g0.gid = gid := (findGen_some hfind).2
  have hloc_set : findGen (updateWhere (fun g => g.gid == gid) (newStrategy s) st) gid
      = some (newStrategy s g0) := by
    rw [findGen_updateWhere (fun g => g.gid == gid) (newStrategy s) (fun g => rfl) st gid,
      hfind]
    simp [hgid]
  have hloc_reg : findGen (updateWhere (fun g => g.gid == gid) (addHooks hs) st) gid
      = some (addHooks hs g0) := by
    rw [findGen_updateWhere (fun g => g.gid == gid) (addHooks hs) (fun g => rfl) st gid,
      hfind]
    simp [hgid]
  refine ⟨?_, ?_, ?_, ?_⟩
  · cases b with
    | false => rw [set_strategy_false]; exact hloc_set
    | true =>
      cases hgr : g0.group with
      | none =>
        rw [set_strategy_true_none s (by rw [groupOf_eq hfind, hgr])]
        exact hloc_set
      | some grp =>
        rw [set_strategy_true_some s (by rw [groupOf_eq hfind, hgr])]
        rw [findGen_updateWhere (fun g => g.group == some grp && g.gid != gid)
          (newStrategy s) (fun g => rfl) _ gid, hloc_set]
        simp [newStrategy, hgid]
  · cases b with
    | false => rw [register_hooks_false]; exact hloc_reg
    | true =>
      cases hgr : g0.group with
      | none =>
        rw [register_hooks_true_none hs (by rw [groupOf_eq hfind, hgr])]
        exact hloc_reg
      | some grp =>
        rw [register_hooks_true_some hs (by rw [groupOf_eq hfind, hgr])]
        rw [findGen_updateWhere (fun g => g.group == some grp && g.gid != gid)
          (addHooks hs) (fun g => rfl) _ gid, hloc_reg]
        simp [addHooks, hgid]
  · intro st2 hok
    cases hone : deregOne st gid hook with
    | error e =>
      rw [deregister_hook_error hone b] at hok
      cases hok
    | ok st1 =>
      have hst1 : findGen st1 gid = some (removeHook hook g0) := by
        rw [deregOne_eq hfind hook] at hone
        by_cases hall : g0.hooks.all (fun i => i != hook)
        · rw [if_pos hall] at hone; cases hone
        · rw [if_neg hall] at hone
          cases hone
          rw [findGen_updateWhere (fun g => g.gid == gid) (removeHook hook)
            (fun g => rfl) st gid, hfind]
          simp [hgid]
      have hpres : ∀ (gids : List Nat) (st' : RegState),
          deregList hook gids st' = Except.ok st2 →
          (∀ i ∈ gids, i ≠ gid) →
          findGen st' gid = some (removeHook hook g0) →
          findGen st2 gid = some (removeHook hook g0) := by
        intro gids
        induction gids with
        | nil =>
          intro st' hok' _ hcur
          cases hok'
          exact hcur
        | cons i rest ih =>
          intro st' hok' hne hcur
          cases hone' : deregOne st' i hook with
          | error e =>
            rw [deregList_cons_error hone' rest] at hok'
            cases hok'
          | ok st'' =>
            rw [deregList_cons_ok hone' rest] at hok'
            refine ih st'' hok' (fun j hj => hne j (List.mem_cons_of_mem _ hj)) ?_
            have hneq : i ≠ gid := hne i (List.mem_cons_self i rest)
            cases hfi : findGen st' i with
            | none =>
              rw [deregOne_eq_none hfi hook] at hone'
              cases hone'
              exact hcur
            | some gi =>
              rw [deregOne_eq hfi hook] at hone'
              by_cases hall : gi.hooks.all (fun x => x != hook)
              · rw [if_pos hall] at hone'; cases hone'
              · rw [if_neg hall] at hone'
                cases hone'
                rw [findGen_updateWhere (fun g => g.gid == i) (removeHook hook)
                  (fun g => rfl) st' gid, hcur]
                have hcond : (((removeHook hook g0).gid == i)) = false := by
                  have hne2 : g0.gid ≠ i := by rw [hgid]; exact Ne.symm hneq
                  simpa [removeHook] using hne2
                simp only [Option.map_some']
                rw [if_neg (by simp [hcond])]
      cases b with
      | false =>
        rw [deregister_hook_ok_false hone] at hok
        cases hok
        rw [hst1]
        rfl
      | true =>
        cases hgr : g0.group with
        | none =>
          rw [deregister_hook_ok_true_none hone (by rw [groupOf_eq hfind, hgr])] at hok
          cases hok
          rw [hst1]
          rfl
        | some grp =>
          rw [deregister_hook_ok_true_some hone (by rw [groupOf_eq hfind, hgr])] at hok
          have hmem : ∀ i ∈ (st.filter
              (fun g => g.group == some grp && g.gid != gid)).map (fun g => g.gid),
              i ≠ gid := by
            intro i hi
            rcases List.mem_map.mp hi with ⟨g, hg, rfl⟩
            have hp := List.of_mem_filter hg
            simp only [Bool.and_eq_true, bne_iff_ne, ne_eq] at hp
            exact hp.2
          rw [hpres _ st1 hok hmem hst1]
          rfl
  · intro hnone
    unfold gen_call
    rw [findGen_updateWhere (fun g => g.gid == gid) ensureCompiled
      (fun g => ensureCompiled_gid g) st gid, hfind]
    simp only [Option.map_some']
    rw [if_pos (by simp [hgid]), ensureCompiled_none hnone]

/-- Concrete ungrouped registry entry for witnesses. -/
def gSolo : Generator := ⟨1, 0, none, [5], none⟩

/-- Witness for C3 on a one-generator registry. -/
theorem mutators_invalidate_cache_witness :
    findGen (set_strategy [gSolo] 1 9 true) 1 = some (newStrategy 9 gSolo)
    ∧ findGen (register_hooks [gSolo] 1 [6] true) 1 = some (addHooks [6] gSolo)
    ∧ (findGen [⟨1, 0, none, [], none⟩] 1).map Generator.compiled_func = some none
    ∧ findGen (gen_call [gSolo] 1) 1
        = some { gSolo with compiled_func := some (gSolo.strategy, gSolo.hooks) } :=
  ⟨(mutators_invalidate_cache [gSolo] 1 9 5 [6] true gSolo rfl).1,
    (mutators_invalidate_cache [gSolo] 1 9 5 [6] true gSolo rfl).2.1,
    (mutators_invalidate_cache [gSolo] 1 9 5 [6] true gSolo rfl).2.2.1
      [⟨1, 0, none, [], none⟩] rfl,
    (mutators_invalidate_cache [gSolo] 1 9 5 [6] true gSolo rfl).2.2.2 rfl⟩

/-! ### Claim theorem: group propagation and frame of set_strategy (C6) -/

/-- C6: for a generator in a registered group, `set_strategy` with
`as_group=True` installs the same strategy instance and nulls the cache
on every group member, while with `as_group=False` only the target
generator changes and every other generator — its strategy, hooks and
cache — is left exactly as it was. -/
theorem set_strategy_group_propagation (st : RegState) (gid s : Nat) (g0 : Generator)
    (grp : String) (hnd : (st.map Generator.gid).Nodup)
    (hfind : findGen st gid = some g0) (hgrp : g0.group = some grp) :
    (∀ mem ∈ st, mem.group = some grp →
        findGen (set_strategy st gid s true) mem.gid = some (newStrategy s mem))
    ∧ findGen (set_strategy st gid s false) gid = some (newStrategy s g0)
    ∧ (∀ mem ∈ st, mem.gid ≠ gid →
        findGen (set_strategy st gid s false) mem.gid = some mem) := by
  have hgid : g0.gid = gid := (findGen_some hfind).2
  refine ⟨?_, ?_, ?_⟩
  · intro mem hmem hmgrp
    rw [set_strategy_true_some s (by rw [groupOf_eq hfind, hgrp])]
    rw [findGen_updateWhere (fun g => g.group == some grp && g.gid != gid)
      (newStrategy s) (fun g => rfl) _ mem.gid]
    rw [findGen_updateWhere (fun g => g.gid == gid) (newStrategy s) (fun g => rfl)
      st mem.gid]
    rw [findGen_mem st mem hnd hmem]
    by_cases hmg : mem.gid = gid
    · simp [hmg, newStrategy, hmgrp]
    · simp [hmg, newStrategy, hmgrp]
  · rw [set_strategy_false]
    rw [findGen_updateWhere (fun g => g.gid == gid) (newStrategy s) (fun g => rfl)
      st gid, hfind]
    simp [hgid]
  · intro mem hmem hmne
    rw [set_strategy_false]
    rw [findGen_updateWhere (fun g => g.gid == gid) (newStrategy s) (fun g => rfl)
      st mem.gid]
    rw [findGen_mem st mem hnd hmem]
    simp [hmne]

/-- Concrete grouped registry entries for witnesses. -/
def gA : Generator := ⟨1, 0, some "G", [], none⟩

/-- Second member of the witness group, with a hook and a filled cache. -/
def gB : Generator := ⟨2, 0, some "G", [8], some (0, [8])⟩

/-- An ungrouped bystander generator for witnesses. -/
def gC : Generator := ⟨3, 4, none, [], none⟩

/-- Witness for C6 on a three-generator registry. -/
theorem set_strategy_group_propagation_witness :
    findGen (set_strategy [gA, gB, gC] 1 9 true) 2 = some (newStrategy 9 gB)
    ∧ findGen (set_strategy [gA, gB, gC] 1 9 false) 1 = some (newStrategy 9 gA)
    ∧ findGen (set_strategy [gA, gB, gC] 1 9 false) 2 = some gB :=
  ⟨(set_strategy_group_propagation [gA, gB, gC] 1 9 gA "G" (by decide) rfl rfl).1
      gB (by simp) rfl,
    (set_strategy_group_propagation [gA, gB, gC] 1 9 gA "G" (by decide) rfl rfl).2.1,
    (set_strategy_group_propagation [gA, gB, gC] 1 9 gA "G" (by decide) rfl rfl).2.2
      gB (by simp) (by decide)⟩

/-! ### Claim C8: deregistering an unknown hook -/

/-- C8 counterexample: with group propagation left at its default, a
hook that IS in the target generator's hook list can still make
`deregister_hook` raise, because a fellow group member lacks the hook —
refuting, as stated, that the error is raised if and only if the hook is
not in the target's hook list.  Here hook 5 is registered on generator 1
but not on its group-mate 2. -/
theorem deregister_registered_hook_still_raises :
    5 ∈ (⟨1, 0, some "G", [5], none⟩ : Generator).hooks
    ∧ deregister_hook
        [⟨1, 0, some "G", [5], none⟩, ⟨2, 0, some "G", [], none⟩] 1 5 true
      = Except.error "Hook was not registered." :=
  ⟨by decide, rfl⟩

/-- C8 amended: when propagation does not reach another group member
(here: `as_group=False`), `deregister_hook` raises the descriptive error
"Hook was not registered." exactly when the hook is not in the target
generator's hook list (membership by identity), and the error is raised
by the check at the head of the method, before any mutation. -/
theorem deregister_hook_error_iff_local (st : RegState) (gid hook : Nat)
    (g0 : Generator) (hfind : findGen st gid = some g0) :
    deregister_hook st gid hook false = Except.error "Hook was not registered."
      ↔ hook ∉ g0.hooks := by
  by_cases hall : g0.hooks.all (fun i => i != hook)
  · have herr : deregOne st gid hook = Except.error "Hook was not registered." := by
      rw [deregOne_eq hfind hook, if_pos hall]
    rw [deregister_hook_error herr false]
    constructor
    · intro _ hmem
      have := List.all_eq_true.mp hall hook hmem
      simp at this
    · intro _
      rfl
  · have hok : deregOne st gid hook
        = Except.ok (updateWhere (fun g => g.gid == gid) (removeHook hook) st) := by
      rw [deregOne_eq hfind hook, if_neg hall]
    rw [deregister_hook_ok_false hok]
    constructor
    · intro h
      exact Except.noConfusion h
    · intro hnotmem
      exfalso
      apply hall
      refine List.all_eq_true.mpr ?_
      intro i hi
      simp only [bne_iff_ne, ne_eq]
      intro he
      exact hnotmem (he ▸ hi)

/-- Witness for the amended C8 on a concrete registry: hook 7 is not
registered on `gSolo`, and deregistering it locally raises the error. -/
theorem deregister_hook_error_iff_local_witness :
    deregister_hook [gSolo] 1 7 false = Except.error "Hook was not registered."
      ↔ (7 : Nat) ∉ gSolo.hooks :=
  deregister_hook_error_iff_local [gSolo] 1 7 gSolo rfl

/-! ### Lemmas for the registry effect of trace (C10) -/

theorem findGen_update_skip (p : Generator → Bool) (f : Generator → Generator)
    (hf : ∀ g, (f g).gid = g.gid) (st : RegState) (tid : Nat)
    (hno : ∀ g, g.gid = tid → p g = false) :
    findGen (updateWhere p f st) tid = findGen st tid := by
  rw [findGen_updateWhere p f hf st tid]
  cases hft : findGen st tid with
  | none => rfl
  | some gt =>
    have hgt : gt.gid = tid := (findGen_some hft).2
    simp [hno gt hgt]

theorem mem_updateWhere {p : Generator → Bool} {f : Generator → Generator}
    {st : RegState} {m1 : Generator} (h : m1 ∈ updateWhere p f st) :
    ∃ g ∈ st, (p g = true ∧ m1 = f g) ∨ (p g = false ∧ m1 = g) := by
  rcases List.mem_map.mp h with ⟨g, hg, rfl⟩
  refine ⟨g, hg, ?_⟩
  by_cases hp : p g
  · exact Or.inl ⟨hp, by simp [hp]⟩
  · exact Or.inr ⟨by simp [hp], by simp [hp]⟩

theorem updateWhere_map_gid (p : Generator → Bool) (f : Generator → Generator)
    (hf : ∀ g, (f g).gid = g.gid) (st : RegState) :
    (updateWhere p f st).map Generator.gid = st.map Generator.gid := by
  induction st with
  | nil => rfl
  | cons a tl ih =>
    show ((if p a then f a else a) :: updateWhere p f tl).map Generator.gid = _
    rw [List.map_cons, List.map_cons, ih]
    by_cases hp : p a <;> simp [hp, hf]

theorem removeHook_addHooks {g : Generator} {tracer : Nat} (h : tracer ∉ g.hooks) :
    removeHook tracer (addHooks [tracer] g) = { g with compiled_func := none } := by
  have herase : (g.hooks ++ [tracer]).erase tracer = g.hooks := by
    rw [List.erase_append_right _ h]
    simp
  unfold removeHook addHooks
  simp [herase]

theorem register_hooks_group_entries (st : RegState) (gid : Nat) (hs : List Nat)
    (g0 : Generator) (grp : String) (hnd : (st.map Generator.gid).Nodup)
    (hfind : findGen st gid = some g0) (hgrp : g0.group = some grp) :
    (∀ mem ∈ st, mem.group = some grp →
        findGen (register_hooks st gid hs true) mem.gid = some (addHooks hs mem))
    ∧ (∀ mem ∈ st, mem.group ≠ some grp →
        findGen (register_hooks st gid hs true) mem.gid = some mem) := by
  have hgid : g0.gid = gid := (findGen_some hfind).2
  constructor
  · intro mem hmem hmgrp
    rw [register_hooks_true_some hs (by rw [groupOf_eq hfind, hgrp])]
    rw [findGen_updateWhere (fun g => g.group == some grp && g.gid != gid)
      (addHooks hs) (fun g => rfl) _ mem.gid]
    rw [findGen_updateWhere (fun g => g.gid == gid) (addHooks hs) (fun g => rfl)
      st mem.gid]
    rw [findGen_mem st mem hnd hmem]
    by_cases hmg : mem.gid = gid
    · simp [hmg, addHooks, hmgrp]
    · simp [hmg, addHooks, hmgrp]
  · intro mem hmem hmgrp
    have hmg : mem.gid ≠ gid := by
      intro he
      have := findGen_mem st mem hnd hmem
      rw [he, hfind] at this
      cases this
      exact hmgrp hgrp
    rw [register_hooks_true_some hs (by rw [groupOf_eq hfind, hgrp])]
    rw [findGen_updateWhere (fun g => g.group == some grp && g.gid != gid)
      (addHooks hs) (fun g => rfl) _ mem.gid]
    rw [findGen_updateWhere (fun g => g.gid == gid) (addHooks hs) (fun g => rfl)
      st mem.gid]
    rw [findGen_mem st mem hnd hmem]
    simp [hmg, hmgrp]

theorem deregList_all_ok (hook : Nat) (gids : List Nat) :
    ∀ (st : RegState), gids.Nodup →
      (∀ i ∈ gids, ∃ g, findGen st i = some g ∧ hook ∈ g.hooks) →
      ∃ st2, deregList hook gids st = Except.ok st2
        ∧ (∀ tid, tid ∉ gids → findGen st2 tid = findGen st tid)
        ∧ (∀ i ∈ gids, findGen st2 i = (findGen st i).map (removeHook hook)) := by
  induction gids with
  | nil =>
    intro st _ _
    exact ⟨st, rfl, fun tid _ => rfl, fun i hi => absurd hi (List.not_mem_nil i)⟩
  | cons i rest ih =>
    intro st hnd hpre
    rcases hpre i (List.mem_cons_self i rest) with ⟨g, hfg, hmemg⟩
    have hirest : i ∉ rest := (List.nodup_cons.mp hnd).1
    have hndrest : rest.Nodup := (List.nodup_cons.mp hnd).2
    have hallf : ¬(g.hooks.all (fun x => x != hook) = true) := by
      intro hall
      have := List.all_eq_true.mp hall hook hmemg
      simp at this
    have hone : deregOne st i hook
        = Except.ok (updateWhere (fun g2 => g2.gid == i) (removeHook hook) st) := by
      rw [deregOne_eq hfg hook, if_neg hallf]
    have hst1_other : ∀ tid, tid ≠ i →
        findGen (updateWhere (fun g2 => g2.gid == i) (removeHook hook) st) tid
          = findGen st tid := by
      intro tid htid
      refine findGen_update_skip (fun g2 => g2.gid == i) (removeHook hook)
        (fun g2 => rfl) st tid (fun g2 hg2 => ?_)
      simp [hg2, htid]
    have hst1_i : findGen (updateWhere (fun g2 => g2.gid == i) (removeHook hook) st) i
        = (findGen st i).map (removeHook hook) := by
      rw [findGen_updateWhere (fun g2 => g2.gid == i) (removeHook hook)
        (fun g2 => rfl) st i, hfg]
      have : g.gid = i := (findGen_some hfg).2
      simp [this]
    have hpre1 : ∀ j ∈ rest,
        ∃ gj, findGen (updateWhere (fun g2 => g2.gid == i) (removeHook hook) st) j
            = some gj ∧ hook ∈ gj.hooks := by
      intro j hj
      rcases hpre j (List.mem_cons_of_mem i hj) with ⟨gj, hfgj, hmj⟩
      have hji : j ≠ i := fun he => hirest (he ▸ hj)
      exact ⟨gj, by rw [hst1_other j hji, hfgj], hmj⟩
    rcases ih (updateWhere (fun g2 => g2.gid == i) (removeHook hook) st) hndrest hpre1
      with ⟨st2, hok2, hother2, hmem2⟩
    refine ⟨st2, ?_, ?_, ?_⟩
    · rw [deregList_cons_ok hone rest]
      exact hok2
    · intro tid htid
      have h1 : tid ∉ rest := fun hh => htid (List.mem_cons_of_mem i hh)
      have h2 : tid ≠ i := fun he => htid (he ▸ List.mem_cons_self i rest)
      rw [hother2 tid h1, hst1_other tid h2]
    · intro j hj
      rcases List.mem_cons.mp hj with rfl | hj'
      · rw [hother2 j hirest, hst1_i]
      · rw [hmem2 j hj', hst1_other j (fun he => hirest (he ▸ hj'))]

/-! ### Claim theorem: trace registers the tracer group-wide (C10) -/

/-- C10: `Generator.trace` registers its tracer with the
`register_hooks` default `as_group=True`: the tracer is appended to
every group member's hook list and every member's cache is nulled, while
generators outside the group are untouched; only when the enumeration
completes normally does the final `deregister_hook` (also group-wide)
run, removing the tracer from every member — restoring each member's
hook list to its prior contents with the cache nulled again — and when
the enumeration does not complete, the deregistration never happens and
the tracer stays registered. -/
theorem trace_registers_group_wide_and_restores {σ V : Type} (m : StratModel σ V)
    (fuel : Nat) (s : σ) (st : RegState) (gid tracer : Nat) (g0 : Generator)
    (grp : String) (hnd : (st.map Generator.gid).Nodup)
    (hfind : findGen st gid = some g0) (hgrp : g0.group = some grp)
    (hfresh : ∀ mem ∈ st, mem.group = some grp → tracer ∉ mem.hooks) :
    (∀ mem ∈ st, mem.group = some grp →
        findGen (register_hooks st gid [tracer] true) mem.gid
          = some (addHooks [tracer] mem))
    ∧ (∀ mem ∈ st, mem.group ≠ some grp →
        findGen (register_hooks st gid [tracer] true) mem.gid = some mem)
    ∧ ((generate m (hooksOf (register_hooks st gid [tracer] true) gid) fuel s).2.2
          = some GenResult.completed →
        ∃ st2, trace_effect m fuel s st gid tracer = Except.ok st2
          ∧ (∀ mem ∈ st, mem.group = some grp →
              findGen st2 mem.gid = some { mem with compiled_func := none })
          ∧ (∀ mem ∈ st, mem.group ≠ some grp → findGen st2 mem.gid = some mem))
    ∧ ((generate m (hooksOf (register_hooks st gid [tracer] true) gid) fuel s).2.2
          ≠ some GenResult.completed →
        trace_effect m fuel s st gid tracer
          = Except.ok (register_hooks st gid [tracer] true)) := by
  have hgid : g0.gid = gid := (findGen_some hfind).2
  have hg0mem : g0 ∈ st := (findGen_some hfind).1
  obtain ⟨hreg_mem, hreg_other⟩ :=
    register_hooks_group_entries st gid [tracer] g0 grp hnd hfind hgrp
  have htrace_if : trace_effect m fuel s st gid tracer
      = (if (generate m (hooksOf (register_hooks st gid [tracer] true) gid) fuel s).2.2
            = some GenResult.completed
        then deregister_hook (register_hooks st gid [tracer] true) gid tracer true
        else Except.ok (register_hooks st gid [tracer] true)) := rfl
  refine ⟨hreg_mem, hreg_other, ?_, ?_⟩
  case refine_2 =>
    intro hc
    rw [htrace_if, if_neg hc]
  intro hc
  rw [htrace_if, if_pos hc]
  have hfind1 : findGen (register_hooks st gid [tracer] true) gid
      = some (addHooks [tracer] g0) := by
    have h1 := hreg_mem g0 hg0mem hgrp
    rw [hgid] at h1
    exact h1
  have hmapgid : (register_hooks st gid [tracer] true).map Generator.gid
      = st.map Generator.gid := by
    rw [register_hooks_true_some [tracer] (by rw [groupOf_eq hfind, hgrp])]
    rw [updateWhere_map_gid (fun g => g.group == some grp && g.gid != gid)
      (addHooks [tracer]) (fun g => rfl),
      updateWhere_map_gid (fun g => g.gid == gid) (addHooks [tracer]) (fun g => rfl)]
  have hnd1 : ((register_hooks st gid [tracer] true).map Generator.gid).Nodup := by
    rw [hmapgid]
    exact hnd
  have hallf : ¬((addHooks [tracer] g0).hooks.all (fun x => x != tracer) = true) := by
    intro hall
    have hm : tracer ∈ (addHooks [tracer] g0).hooks := by simp [addHooks]
    have := List.all_eq_true.mp hall tracer hm
    simp at this
  have hone1 : deregOne (register_hooks st gid [tracer] true) gid tracer
      = Except.ok (updateWhere (fun g => g.gid == gid) (removeHook tracer)
          (register_hooks st gid [tracer] true)) := by
    rw [deregOne_eq hfind1 tracer, if_neg hallf]
  have hgrp1 : groupOf (register_hooks st gid [tracer] true) gid = some grp := by
    rw [groupOf_eq hfind1]
    simp [addHooks, hgrp]
  rw [deregister_hook_ok_true_some hone1 hgrp1]
  have hndm : (((register_hooks st gid [tracer] true).filter
      (fun g => g.group == some grp && g.gid != gid)).map (fun g => g.gid)).Nodup :=
    List.Nodup.sublist (List.Sublist.map _ (List.filter_sublist _)) hnd1
  have hprem : ∀ i ∈ ((register_hooks st gid [tracer] true).filter
        (fun g => g.group == some grp && g.gid != gid)).map (fun g => g.gid),
      i ≠ gid := by
    intro i hi
    rcases List.mem_map.mp hi with ⟨m1, hm1f, rfl⟩
    have hp := List.of_mem_filter hm1f
    simp only [Bool.and_eq_true, bne_iff_ne, ne_eq] at hp
    exact hp.2
  have hpre : ∀ i ∈ ((register_hooks st gid [tracer] true).filter
        (fun g => g.group == some grp && g.gid != gid)).map (fun g => g.gid),
      ∃ g, findGen (updateWhere (fun g => g.gid == gid) (removeHook tracer)
          (register_hooks st gid [tracer] true)) i = some g ∧ tracer ∈ g.hooks := by
    intro i hi
    rcases List.mem_map.mp hi with ⟨m1, hm1f, rfl⟩
    have hm1 : m1 ∈ register_hooks st gid [tracer] true := List.mem_of_mem_filter hm1f
    have hpm := List.of_mem_filter hm1f
    have hm1gid : m1.gid ≠ gid := by
      simp only [Bool.and_eq_true, bne_iff_ne, ne_eq] at hpm
      exact hpm.2
    have hfound : findGen (register_hooks st gid [tracer] true) m1.gid = some m1 :=
      findGen_mem _ m1 hnd1 hm1
    have hskip : findGen (updateWhere (fun g => g.gid == gid) (removeHook tracer)
        (register_hooks st gid [tracer] true)) m1.gid
        = findGen (register_hooks st gid [tracer] true) m1.gid :=
      findGen_update_skip (fun g => g.gid == gid) (removeHook tracer)
        (fun g => rfl) _ m1.gid (fun g hg => by simp [hg, hm1gid])
    refine ⟨m1, by rw [hskip, hfound], ?_⟩
    rw [register_hooks_true_some [tracer] (by rw [groupOf_eq hfind, hgrp])] at hm1
    rcases mem_updateWhere hm1 with ⟨g1, hg1, hcase⟩
    rcases hcase with ⟨hp1, rfl⟩ | ⟨hp1, rfl⟩
    · simp [addHooks]
    · rcases mem_updateWhere hg1 with ⟨g2, hg2, hcase2⟩
      rcases hcase2 with ⟨hp2, rfl⟩ | ⟨hp2, rfl⟩
      · simp [addHooks]
      · exact absurd (List.of_mem_filter hm1f) (by simp [hp1])
  rcases deregList_all_ok tracer (((register_hooks st gid [tracer] true).filter
      (fun g => g.group == some grp && g.gid != gid)).map (fun g => g.gid))
      (updateWhere (fun g => g.gid == gid) (removeHook tracer)
        (register_hooks st gid [tracer] true)) hndm hpre
    with ⟨st2, hok2, hoth2, hmem2⟩
  refine ⟨st2, hok2, ?_, ?_⟩
  · intro mem hmem hmgrp
    by_cases hmg : mem.gid = gid
    · have hmemg0 : mem = g0 := by
        have h1 := findGen_mem st mem hnd hmem
        rw [hmg, hfind] at h1
        exact (Option.some.inj h1).symm
      have hnotin : mem.gid ∉ ((register_hooks st gid [tracer] true).filter
          (fun g => g.group == some grp && g.gid != gid)).map (fun g => g.gid) :=
        fun hin => (hprem mem.gid hin) hmg
      rw [hoth2 mem.gid hnotin, hmg]
      rw [findGen_updateWhere (fun g => g.gid == gid) (removeHook tracer)
        (fun g => rfl) _ gid, hfind1]
      have hag : (addHooks [tracer] g0).gid = gid := by simp [addHooks, hgid]
      simp only [Option.map_some']
      rw [if_pos (by simp [hag])]
      rw [removeHook_addHooks (hfresh g0 hg0mem hgrp)]
      rw [hmemg0, hgid]
    · have hm1 : findGen (register_hooks st gid [tracer] true) mem.gid
          = some (addHooks [tracer] mem) := hreg_mem mem hmem hmgrp
      have haddmem : addHooks [tracer] mem ∈ register_hooks st gid [tracer] true :=
        List.mem_of_find?_eq_some hm1
      have hfilt : addHooks [tracer] mem ∈ (register_hooks st gid [tracer] true).filter
          (fun g => g.group == some grp && g.gid != gid) := by
        refine List.mem_filter.mpr ⟨haddmem, ?_⟩
        simp [addHooks, hmgrp, hmg]
      have hin : mem.gid ∈ ((register_hooks st gid [tracer] true).filter
          (fun g => g.group == some grp && g.gid != gid)).map (fun g => g.gid) :=
        List.mem_map.mpr ⟨addHooks [tracer] mem, hfilt, rfl⟩
      rw [hmem2 mem.gid hin]
      have hskip : findGen (updateWhere (fun g => g.gid == gid) (removeHook tracer)
          (register_hooks st gid [tracer] true)) mem.gid
          = findGen (register_hooks st gid [tracer] true) mem.gid :=
        findGen_update_skip (fun g => g.gid == gid) (removeHook tracer)
          (fun g => rfl) _ mem.gid (fun g hg => by simp [hg, hmg])
      rw [hskip, hm1]
      simp only [Option.map_some']
      rw [removeHook_addHooks (hfresh mem hmem hmgrp)]
  · intro mem hmem hmgrp
    have hmg : mem.gid ≠ gid := by
      intro he
      have h1 := findGen_mem st mem hnd hmem
      rw [he, hfind] at h1
      cases h1
      exact hmgrp hgrp
    have hnotin : mem.gid ∉ ((register_hooks st gid [tracer] true).filter
        (fun g => g.group == some grp && g.gid != gid)).map (fun g => g.gid) := by
      intro hin
      rcases List.mem_map.mp hin with ⟨m1, hm1f, hm1gid⟩
      have hm1mem : m1 ∈ register_hooks st gid [tracer] true :=
        List.mem_of_mem_filter hm1f
      have hfound : findGen (register_hooks st gid [tracer] true) m1.gid = some m1 :=
        findGen_mem _ m1 hnd1 hm1mem
      rw [hm1gid, hreg_other mem hmem hmgrp] at hfound
      cases hfound
      have hp := List.of_mem_filter hm1f
      simp only [Bool.and_eq_true, beq_iff_eq] at hp
      exact hmgrp hp.1
    rw [hoth2 mem.gid hnotin]
    have hskip : findGen (updateWhere (fun g => g.gid == gid) (removeHook tracer)
        (register_hooks st gid [tracer] true)) mem.gid
        = findGen (register_hooks st gid [tracer] true) mem.gid :=
      findGen_update_skip (fun g => g.gid == gid) (removeHook tracer)
        (fun g => rfl) _ mem.gid (fun g hg => by simp [hg, hmg])
    rw [hskip, hreg_other mem hmem hmgrp]

/-- Witness for C10 on a three-generator registry: tracing through
generator 1 temporarily installs tracer 9 on both members of group "G",
leaves the ungrouped generator alone, and on normal completion restores
both members' hook lists with nulled caches. -/
theorem trace_registers_group_wide_and_restores_witness :
    findGen (register_hooks [gA, gB, gC] 1 [9] true) 2 = some (addHooks [9] gB)
    ∧ findGen (register_hooks [gA, gB, gC] 1 [9] true) 3 = some gC
    ∧ trace_effect mSkipVal 5 0 [gA, gB, gC] 1 9
        = Except.ok [gA, { gB with compiled_func := none }, gC]
    ∧ findGen [gA, { gB with compiled_func := none }, gC] 2
        = some { gB with compiled_func := none }
    ∧ findGen [gA, { gB with compiled_func := none }, gC] 3 = some gC := by
  have h := trace_registers_group_wide_and_restores mSkipVal 5 0 [gA, gB, gC] 1 9 gA "G"
    (by decide) rfl rfl (by decide)
  rcases h.2.2.1 rfl with ⟨st2, hok, hmm, hoth⟩
  have heval : trace_effect mSkipVal 5 0 [gA, gB, gC] 1 9
      = Except.ok [gA, { gB with compiled_func := none }, gC] := rfl
  have hst2 : st2 = [gA, { gB with compiled_func := none }, gC] := by
    rw [heval] at hok
    exact (Except.ok.inj hok).symm
  refine ⟨h.1 gB (by decide) rfl, h.2.1 gC (by decide) (by decide), heval, ?_, ?_⟩
  · exact hst2 ▸ hmm gB (by decide) rfl
  · exact hst2 ▸ hoth gC (by decide) (by decide)
